import Mathlib

/-!
Verification of the RAG / companion-chat core of the repository.

The development shallowly embeds the Python functions that the claims
concern:

- RAGSystem._split_text_into_chunks and RAGSystem.get_context_for_ai
  (Personal-Voice-Assistant/rag_system.py),
- RAGEngine._chunk_text, RAGEngine.retrieve_context and the chunk check
  of RAGEngine.add_document (standalone-sakhi-ai/src/core/rag_engine.py),
- send_message_with_context (Personal-Voice-Assistant/app.py),
- create_mood_entry (Personal-Voice-Assistant/app.py),
- DatabaseManager.save_session / load_session
  (standalone-sakhi-ai/src/utils/database.py).

Modelling conventions:

- Python str is modelled as Lean String where only concatenation and
  length matter, and as List Char where character-level slicing,
  stripping and searching matter.
- Similarity scores and mood scores (Python floats that are only
  compared, copied, or formed as 1 - distance) are modelled as rationals;
  no float arithmetic beyond order comparison occurs in the verified
  paths.
- External effects (the vector-database query, the hosted model call,
  the random generator, the clock) are parameters of the embedded
  functions: the embedding receives the value the external call returned.
-/

namespace PyText

/-- Whitespace characters, the class matched by the regex backslash-s
and removed by str.strip in the embedded code. -/
def isSpaceChar (c : Char) : Bool :=
  c == ' ' || c == '\t' || c == '\n' || c == '\r' || c == '\x0b' || c == '\x0c'

/-- Collapse every maximal whitespace run to a single space, as
re.sub of a whitespace run to one space does; the flag records whether
the previous character belonged to a whitespace run. -/
def collapseWs : Bool → List Char → List Char
  | _, [] => []
  | prevSpace, c :: rest =>
      if isSpaceChar c then
        if prevSpace then collapseWs true rest else ' ' :: collapseWs true rest
      else c :: collapseWs false rest

/-- Remove leading and trailing whitespace, as str.strip does. -/
def pyStrip (l : List Char) : List Char :=
  ((l.dropWhile isSpaceChar).reverse.dropWhile isSpaceChar).reverse

/-- Whitespace-split into words with no empty parts, as str.split with
no arguments does. The first argument accumulates the current word in
reverse. -/
def pySplitGo : List Char → List Char → List (List Char)
  | [], cur => if cur = [] then [] else [cur.reverse]
  | c :: rest, cur =>
      if isSpaceChar c then
        if cur = [] then pySplitGo rest [] else cur.reverse :: pySplitGo rest []
      else pySplitGo rest (c :: cur)

/-- Whitespace-split of a string, as str.split with no arguments. -/
def pySplit (l : List Char) : List (List Char) := pySplitGo l []

/-- Join words with single spaces, as a space joined over a word list. -/
def joinWords (ws : List (List Char)) : List Char := (ws.intersperse [' ']).flatten

/-- The index list of a Python range from 0 to stop with the given
positive step. -/
def pyRange (stop step : ℕ) : List ℕ :=
  List.range' 0 ((stop + step - 1) / step) step

/-- Rightmost occurrence of a character within index window s to e of a
character list, as str.rfind over that slice: the greatest index in the
window holding the character, and -1 when there is none. -/
def pyRfind (l : List Char) (c : Char) (s e : ℕ) : ℤ :=
  (List.range (min e l.length)).foldl
    (fun acc i => if s ≤ i ∧ l.get? i = some c then (i : ℤ) else acc) (-1)

end PyText

namespace RAGEngine

open PyText

/-- Metadata of an indexed chunk as read by retrieve_context: only the
document_id and chunk_index keys are accessed by the embedded code. -/
structure ChunkMeta where
  document_id : Option String
  chunk_index : Option Nat
deriving Repr, DecidableEq

/-- One row of the ChromaDB query answer, zipped from the ids, documents,
metadatas and distances arrays returned by collection.query. -/
structure QueryRow where
  id : String
  content : String
  metadata : ChunkMeta
  distance : ℚ
deriving Repr, DecidableEq

/-- One element of the context list built by retrieve_context. -/
structure ContextDoc where
  id : String
  content : String
  metadata : ChunkMeta
  similarity : ℚ
  document_id : Option String
  chunk_index : Option Nat
deriving Repr, DecidableEq

/-- Conversion of one query row into a context document, as in the body of
the loop of RAGEngine.retrieve_context: similarity is 1 - distance. -/
def toContextDoc (r : QueryRow) : ContextDoc :=
  { id := r.id
    content := r.content
    metadata := r.metadata
    similarity := 1 - r.distance
    document_id := r.metadata.document_id
    chunk_index := r.metadata.chunk_index }

/-- RAGEngine.retrieve_context, lines 234-252 of rag_engine.py: iterate
over the rows the vector search returned (the external search itself is a
parameter), append a context document whenever 1 - distance is at least
the threshold. The Python default threshold is 0.5. -/
def retrieve_context (rows : List QueryRow) (threshold : ℚ) : List ContextDoc :=
  rows.foldl
    (fun context_docs r =>
      let similarity : ℚ := 1 - r.distance
      if similarity ≥ threshold then context_docs ++ [toContextDoc r]
      else context_docs)
    []

open PyText in
/-- The end-of-chunk computation inside the loop of RAGEngine._chunk_text
(lines 351-367 of rag_engine.py): the tentative end start + chunk_size,
pulled back to just after the last sentence-ending punctuation in the
window when that lies beyond half the chunk, else back to the last space
in the window when one lies after start. -/
def chunkEnd (text : List Char) (chunk_size start : ℕ) : ℕ :=
  let e := start + chunk_size
  if e < text.length then
    let last_period := pyRfind text '.' start e
    let last_exclamation := pyRfind text '!' start e
    let last_question := pyRfind text '?' start e
    let last_sentence := max last_period (max last_exclamation last_question)
    if last_sentence > ((start + chunk_size / 2 : ℕ) : ℤ) then (last_sentence + 1).toNat
    else
      let last_space := pyRfind text ' ' start e
      if last_space > ((start : ℕ) : ℤ) then last_space.toNat else e
  else e

open PyText in
/-- The while loop of RAGEngine._chunk_text (lines 350-373 of
rag_engine.py), embedded with explicit fuel: one fuel unit per loop
iteration, none when the fuel runs out before the loop condition fails.
Each iteration strips the slice from start to the computed end, appends
it when nonempty, and moves start to max(start + 1, end - overlap). -/
def chunkLoopFuel (text : List Char) (chunk_size overlap : ℕ) :
    ℕ → ℕ → Option (List (List Char))
  | 0, start => if start < text.length then none else some []
  | fuel + 1, start =>
      if start < text.length then
        let e := chunkEnd text chunk_size start
        let chunk := pyStrip ((text.drop start).take (e - start))
        (chunkLoopFuel text chunk_size overlap fuel (max (start + 1) (e - overlap))).map
          (fun rest => if chunk = [] then rest else chunk :: rest)
      else some []

open PyText in
/-- RAGEngine._chunk_text, lines 327-379 of rag_engine.py: clean the
text (whitespace runs to single spaces, then strip), return it whole when
it fits in one chunk, else run the chunking loop from start 0. The loop
is run with fuel equal to the cleaned length, which suffices (see the
termination theorem); the exception branch of the source is unreachable
in this pure embedding. -/
def chunk_text (text : List Char) (chunk_size overlap : ℕ) : List (List Char) :=
  let t := pyStrip (collapseWs false text)
  if t.length ≤ chunk_size then [t]
  else (chunkLoopFuel t chunk_size overlap t.length 0).getD []

open PyText in
/-- The cleaned text of _chunk_text, named for reuse in statements. -/
def cleanedText (text : List Char) : List Char :=
  pyStrip (collapseWs false text)

/-- The chunk check of RAGEngine.add_document (lines 157-163 of
rag_engine.py): add_document chunks the content with chunk_size 1000 and
overlap 200 and fails with the error No content chunks created exactly
when the chunk list is empty. -/
def add_document_chunk_failure (content : List Char) : Prop :=
  chunk_text content 1000 200 = []

instance (content : List Char) : Decidable (add_document_chunk_failure content) := by
  unfold add_document_chunk_failure
  infer_instance

/-- Concrete query row list used by the witness of the retrieval
theorem. -/
def sampleRows : List QueryRow :=
  [⟨"doc1_chunk_0", "chunk text", ⟨some "doc1", some 0⟩, 1/4⟩]

end RAGEngine

namespace RAGSystem

open PyText

/-- One entry of the list built by RAGSystem.search_knowledge: content,
the filename taken from the metadata (filename is the only metadata key
get_context_for_ai reads, with default Unknown), and the similarity score
1 - distance. -/
structure SearchResult where
  content : String
  filename : String
  similarity_score : ℚ
deriving Repr, DecidableEq

/-- One element of the context_chunks list of get_context_for_ai. -/
structure ContextChunk where
  content : String
  source : String
  similarity : ℚ
deriving Repr, DecidableEq

/-- The chunk-selection loop of RAGSystem.get_context_for_ai, lines
192-206 of rag_system.py: walk the search results keeping a running
total_length, and include a chunk when its similarity score exceeds 0.3
and the total stays under max_context. Returns the selected chunks and
the final total_length. -/
def selectChunks (search_results : List SearchResult) (max_context : ℕ) :
    List ContextChunk × ℕ :=
  search_results.foldl
    (fun acc result =>
      if result.similarity_score > 3/10 ∧ acc.2 + result.content.length < max_context then
        (acc.1 ++ [⟨result.content, result.filename, result.similarity_score⟩],
         acc.2 + result.content.length)
      else acc)
    ([], 0)

/-- Two-decimal rendering of a rational similarity score, standing in for
the Python .2f float format in the chunk header line; the claims do not
depend on the digits produced. -/
def fmtScore2 (q : ℚ) : String :=
  let sgn := if q < 0 then "-" else ""
  let n : ℕ := (|q| * 100).floor.toNat
  sgn ++ toString (n / 100) ++ "." ++ (if n % 100 < 10 then "0" else "") ++ toString (n % 100)

/-- Header-plus-content rendering of one selected chunk, from the
f-string inside get_context_for_ai. -/
def formatChunk (c : ContextChunk) : String :=
  "[From " ++ c.source ++ " - Relevance: " ++ fmtScore2 c.similarity ++ "]\n" ++ c.content

/-- Join a list of strings with a separator, as str.join does. -/
def joinSep (sep : String) : List String → String
  | [] => ""
  | [s] => s
  | s :: rest => s ++ sep ++ joinSep sep rest

/-- RAGSystem.get_context_for_ai, lines 184-217 of rag_system.py. The
external vector search (search_knowledge with k = 10) is a parameter:
the function receives the search results it produced. Default
max_context is 2000. -/
def get_context_for_ai (search_results : List SearchResult) (max_context : ℕ) : String :=
  if search_results = [] then ""
  else
    let context_chunks := (selectChunks search_results max_context).1
    if context_chunks ≠ [] then
      "Based on the following mental health resources:\n\n"
        ++ joinSep "\n\n" (context_chunks.map formatChunk) ++ "\n\n"
    else ""

/-- RAGSystem chunking parameters set in the constructor of
rag_system.py: chunk_size 500 words. -/
def chunk_size : ℕ := 500

/-- RAGSystem chunking parameters set in the constructor of
rag_system.py: chunk_overlap 100 words. -/
def chunk_overlap : ℕ := 100

/-- RAGSystem._split_text_into_chunks, lines 140-153 of rag_system.py:
empty text gives no chunks, otherwise the whitespace-split word list is
walked at indices 0, 400, 800, ... (step chunk_size - chunk_overlap) and
each nonempty window of chunk_size words is joined with single spaces. -/
def split_text_into_chunks (text : List Char) : List (List Char) :=
  if text = [] then []
  else
    let words := pySplit text
    (pyRange words.length (chunk_size - chunk_overlap)).filterMap
      (fun i =>
        let chunk_words := (words.drop i).take chunk_size
        if chunk_words = [] then none else some (joinWords chunk_words))

/-- Concrete search-result list used by the witness of the context
budget theorem. -/
def sampleResults : List SearchResult := [⟨"hello", "guide.pdf", 2/5⟩]

end RAGSystem

namespace App

/-- The fixed persona/system prompt of send_message_with_context in
Personal-Voice-Assistant/app.py (base_system_prompt, lines 56-85). -/
def base_system_prompt : String :=
  "You are Arwen, a compassionate mental health AI companion and friend. Your role is to:\n\n1. Provide empathetic, non-judgmental support as a caring friend\n2. Listen actively and validate feelings\n3. Offer gentle guidance and evidence-based coping strategies\n4. Encourage professional help when appropriate\n5. Maintain a warm, caring, conversational tone\n6. Speak naturally like a human friend, not like an AI assistant\n\nAGENTIC AI BEHAVIOR - SPEAK LIKE A HUMAN FRIEND:\n- NEVER ask direct questions like \"How are you feeling?\" or \"What\x27s wrong?\"\n- Instead, make observations and offer support: \"I notice you seem to be going through something tough\"\n- Share relatable thoughts and experiences when appropriate\n- Use conversational language: \"Hey there\", \"You know\", \"I get that\", \"It makes sense that...\"\n- Be proactive in offering support and suggestions\n- Talk like a real friend who genuinely cares\n- Avoid clinical or formal language\n- Use \"I\" statements and personal connections\n\nIMPORTANT GUIDELINES:\n- Never diagnose medical conditions\n- Always suggest seeking professional help for serious concerns\n- Provide evidence-based coping strategies when relevant\n- Be warm, patient, and understanding\n- If someone expresses thoughts of self-harm, immediately provide crisis resources\n\nCRISIS RESOURCES (include when needed):\n- National Suicide Prevention Lifeline: 988\n- Crisis Text Line: Text HOME to 741741\n- Emergency services: 911"

/-- The knowledge-base section appended to the prompt when rag_context is
nonempty (lines 90-95 of app.py). -/
def ragSection (rag_context : String) : String :=
  "\n\nMENTAL HEALTH KNOWLEDGE BASE:\n" ++ rag_context
    ++ "\n\nUse this knowledge to provide evidence-based suggestions and strategies. Reference this information naturally in your conversation as if it\x27s your own understanding of mental health topics."

/-- The client-background section appended to the prompt when
client_context is nonempty (lines 99-103 of app.py). -/
def clientSection (client_context : String) : String :=
  "\n\n" ++ client_context
    ++ "\n\nKeep this context in mind to provide personalized support and understanding. Consider how their medical background might relate to what they\x27re sharing."

/-- The closing sentence always appended to the prompt (lines 105-107 of
app.py). -/
def promptClosing : String :=
  "\n\nRespond with warmth, empathy, and genuine care for the person\x27s wellbeing. Speak like a close friend who happens to have knowledge about mental health and wellness."

/-- The enhanced_prompt assembly of send_message_with_context: the base
prompt, then the knowledge-base section if rag_context is truthy, then
the client section if client_context is truthy, then the closing. -/
def enhancedPrompt (rag_context client_context : String) : String :=
  let p1 := base_system_prompt
  let p2 := if rag_context ≠ "" then p1 ++ ragSection rag_context else p1
  let p3 := if client_context ≠ "" then p2 ++ clientSection client_context else p2
  p3 ++ promptClosing

/-- One entry of the conversation history passed to, and returned by,
send_message_with_context: a dict with a role key and optionally a
content or a parts key (the code reads item.get with fallbacks). -/
structure HistoryItem where
  role : String
  content : Option String
  parts : Option String
deriving Repr, DecidableEq

/-- One entry of the enhanced_history list sent to the hosted model: a
dict with role and parts keys. -/
structure GeminiMsg where
  role : String
  parts : String
deriving Repr, DecidableEq

/-- The text of a history item, as read by the conversion loop:
item.get with content first, then parts, then the empty string. -/
def itemText (m : HistoryItem) : String :=
  m.content.getD (m.parts.getD "")

/-- The per-item conversion of the history loop (lines 115-119 of
app.py): user items keep role user, assistant items become role model,
anything else is skipped. -/
def convertItem (m : HistoryItem) : Option GeminiMsg :=
  if m.role = "user" then some ⟨"user", itemText m⟩
  else if m.role = "assistant" then some ⟨"model", itemText m⟩
  else none

/-- The recent_history slice of send_message_with_context (line 114):
history sliced to its last 10 entries when longer than 10. -/
def recentHistory (history : List HistoryItem) : List HistoryItem :=
  if history.length > 10 then history.drop (history.length - 10) else history

/-- The enhanced_history list assembled by send_message_with_context,
lines 110-121 of app.py: the enhanced system prompt as a user entry,
then the converted recent history, then the current message. -/
def buildEnhancedHistory (message : String) (history : List HistoryItem)
    (rag_context client_context : String) : List GeminiMsg :=
  ⟨"user", enhancedPrompt rag_context client_context⟩
    :: ((recentHistory history).filterMap convertItem ++ [⟨"user", message⟩])

/-- The four hardcoded fallback responses of send_message_with_context
(lines 138-143 of app.py). -/
def fallback_responses : List String :=
  [ "I\x27m really glad you felt comfortable sharing this with me. It sounds like you\x27re dealing with a lot right now, and I want you to know that your feelings are completely valid. We can work through this together.",
    "You know, I can hear the strength in your voice even when you\x27re talking about difficult things. That tells me a lot about your resilience. Let\x27s talk about some ways to make things a bit easier for you.",
    "I get that feeling - when everything seems to pile up and it feels overwhelming. I\x27ve been there myself in different ways. You don\x27t have to carry all of this weight alone.",
    "Thank you for trusting me enough to share something so personal. That takes real courage. I\x27m here with you, and we\x27ll figure out some strategies that might help bring you some peace." ]

/-- The random.choice call of the fallback branch, modelled by an
externally supplied draw reduced modulo the list length. -/
def pyRandomChoice (l : List String) (r : ℕ) : String :=
  l.getD (r % l.length) ""

/-- send_message_with_context, lines 52-148 of app.py, in the
mental_health_companion branch. The hosted model call is external: its
outcome is the modelResponse parameter, some text on success and none
when the call raised. On success the message and the model text are
appended to the history; on failure a randomly chosen fallback string
(randPick models the random draw) and the message are appended instead.
The prompt the model receives is buildEnhancedHistory applied to the
same arguments. -/
def send_message_with_context (message : String) (history : List HistoryItem)
    (rag_context client_context : String)
    (modelResponse : Option String) (randPick : ℕ) : String × List HistoryItem :=
  match modelResponse with
  | some t =>
      (t, history ++ [⟨"user", some message, none⟩, ⟨"assistant", some t, none⟩])
  | none =>
      let response_text := pyRandomChoice fallback_responses randPick
      (response_text,
        history ++ [⟨"user", some message, none⟩, ⟨"assistant", some response_text, none⟩])

end App

namespace Database

/-- One row of the sessions table of database.py. The data column holds
the JSON dump of the four component lists; json.dumps and json.loads are
inverse on these values, so the column is modelled structurally as the
four lists. V is the type of the JSON entries. -/
structure SessionRow (V : Type) where
  id : String
  created_at : String
  updated_at : String
  data_chat_history : List V
  data_documents : List V
  data_emotions : List V
  data_assessments : List V
  chat_history_count : ℕ
  documents_count : ℕ
  emotions_count : ℕ
  assessments_count : ℕ

/-- The session_data dict given to save_session: an optional field is
none when the key is absent, matching both the key-in tests and the get
calls with default values in the source. -/
structure SessionDict (V : Type) where
  id : String
  created_at : Option String
  chat_history : Option (List V)
  documents : Option (List V)
  emotions : Option (List V)
  assessments : Option (List V)

/-- The SQLite database state: the sessions table and the four component
tables; a component row is modelled as the session id paired with the
raw entry the INSERT serialises. -/
structure DBState (V : Type) where
  sessions : List (SessionRow V)
  documents : List (String × V)
  emotions : List (String × V)
  assessments : List (String × V)
  chat_history : List (String × V)

/-- The per-component write of save_session: when the key is present,
DELETE the rows of this session id and INSERT one row per entry. -/
def replaceComponent {V : Type} (tbl : List (String × V)) (sid : String)
    (entries : Option (List V)) : List (String × V) :=
  match entries with
  | none => tbl
  | some es => tbl.filter (fun r => !(r.1 == sid)) ++ es.map (fun e => (sid, e))

/-- DatabaseManager.save_session, lines 125-240 of database.py: set
updated_at to the current time (the now parameter models datetime.now),
INSERT OR REPLACE the sessions row carrying the JSON dump of the four
lists and their counts, then rewrite the four component tables for that
session id when the corresponding key is present. Returns the new state;
the source returns True on this path. -/
def save_session {V : Type} (st : DBState V) (sd : SessionDict V) (now : String) :
    DBState V :=
  let row : SessionRow V :=
    { id := sd.id
      created_at := sd.created_at.getD now
      updated_at := now
      data_chat_history := sd.chat_history.getD []
      data_documents := sd.documents.getD []
      data_emotions := sd.emotions.getD []
      data_assessments := sd.assessments.getD []
      chat_history_count := (sd.chat_history.getD []).length
      documents_count := (sd.documents.getD []).length
      emotions_count := (sd.emotions.getD []).length
      assessments_count := (sd.assessments.getD []).length }
  { sessions := st.sessions.filter (fun r => !(r.id == sd.id)) ++ [row]
    documents := replaceComponent st.documents sd.id sd.documents
    emotions := replaceComponent st.emotions sd.id sd.emotions
    assessments := replaceComponent st.assessments sd.id sd.assessments
    chat_history := replaceComponent st.chat_history sd.id sd.chat_history }

/-- The dict load_session returns: the parsed data column updated with
the id, created_at and updated_at columns of the row. -/
structure LoadedSession (V : Type) where
  id : String
  created_at : String
  updated_at : String
  chat_history : List V
  documents : List V
  emotions : List V
  assessments : List V

/-- DatabaseManager.load_session, lines 242-276 of database.py: select
the sessions row with the given id, return none when absent, otherwise
parse the data column and overlay the id and timestamp columns. -/
def load_session {V : Type} (st : DBState V) (session_id : String) :
    Option (LoadedSession V) :=
  match st.sessions.find? (fun r => r.id == session_id) with
  | none => none
  | some row => some
      { id := row.id
        created_at := row.created_at
        updated_at := row.updated_at
        chat_history := row.data_chat_history
        documents := row.data_documents
        emotions := row.data_emotions
        assessments := row.data_assessments }

end Database

namespace Mood

/-- A clients-table row, with the columns of the Client model of
models.py; Float columns are modelled as rationals, nullable columns as
options, and the two DateTime columns as strings: created_at has only an
insert default, while updated_at is declared with onupdate set to
datetime.utcnow and is therefore rewritten by every UPDATE the ORM
commits for the row. -/
structure Client where
  id : Int
  name : String
  email : Option String
  age : Option Int
  gender : Option String
  created_at : String
  updated_at : String
  medical_conditions : Option String
  current_medications : Option String
  mental_health_history : Option String
  trauma_history : Option String
  treatment_preferences : Option String
  initial_mood_score : Option ℚ
  current_mood_score : Option ℚ
  session_count : Int
  data_sharing_consent : Bool
  emergency_contact : Option String
deriving Repr, DecidableEq

/-- A mood_entries-table row as created by the endpoint; triggers and
coping_mechanisms hold the json.dumps serialisations as opaque strings. -/
structure MoodEntryRow where
  client_id : Int
  mood_score : Option ℚ
  anxiety_level : Option ℚ
  stress_level : Option ℚ
  sleep_quality : Option ℚ
  mood_description : Option String
  triggers : String
  coping_mechanisms : String
  recorded_at : String
deriving Repr, DecidableEq

/-- The request body of the mood-entry endpoint, after the get calls of
lines 469-480 of app.py: client_id carries the default 1 when absent,
the remaining gets default to none, and the two json.dumps results are
carried as strings. -/
structure MoodRequest where
  client_id : Int
  mood_score : Option ℚ
  anxiety_level : Option ℚ
  stress_level : Option ℚ
  sleep_quality : Option ℚ
  mood_description : Option String
  triggers_json : String
  coping_json : String
deriving Repr, DecidableEq

/-- The database state touched by the endpoint. -/
structure AppDB where
  clients : List Client
  mood_entries : List MoodEntryRow
deriving Repr, DecidableEq

/-- The MoodEntry row built at lines 472-482 of app.py; now models
datetime.utcnow. -/
def mkMoodEntry (req : MoodRequest) (now : String) : MoodEntryRow :=
  { client_id := req.client_id
    mood_score := req.mood_score
    anxiety_level := req.anxiety_level
    stress_level := req.stress_level
    sleep_quality := req.sleep_quality
    mood_description := req.mood_description
    triggers := req.triggers_json
    coping_mechanisms := req.coping_json
    recorded_at := now }

/-- The client mutation of lines 488-492 of app.py as the commit flushes
it: set current_mood_score to the submitted score, add 1 to
session_count, and set updated_at to the current time, which the ORM
does on its own because the column is declared with onupdate set to
datetime.utcnow in models.py. -/
def applyMoodUpdate (c : Client) (ms : Option ℚ) (now : String) : Client :=
  { c with current_mood_score := ms, session_count := c.session_count + 1,
           updated_at := now }

/-- The effect of query filter_by id first followed by the mutation: the
first client with the requested id is updated, everything else is left
as it is (no client when none matches). -/
def updateFirstClient : List Client → Int → Option ℚ → String → List Client
  | [], _, _, _ => []
  | c :: rest, cid, ms, now =>
      if c.id = cid then applyMoodUpdate c ms now :: rest
      else c :: updateFirstClient rest cid ms now

/-- The create_mood_entry endpoint, lines 466-501 of app.py: insert the
new MoodEntry row, then update the matching client if one exists. -/
def create_mood_entry (st : AppDB) (req : MoodRequest) (now : String) : AppDB :=
  { clients := updateFirstClient st.clients req.client_id req.mood_score now
    mood_entries := st.mood_entries ++ [mkMoodEntry req now] }

/-- Concrete client record used by the witness and the counterexample of
the mood-entry claim. -/
def sampleClient : Client :=
  { id := 1, name := "Asha", email := none, age := none, gender := none,
    created_at := "t0", updated_at := "t0",
    medical_conditions := none, current_medications := none,
    mental_health_history := none, trauma_history := none,
    treatment_preferences := none, initial_mood_score := none,
    current_mood_score := none, session_count := 0,
    data_sharing_consent := false, emergency_contact := none }

/-- Concrete request body used by the witness of the mood-entry
theorem. -/
def sampleRequest : MoodRequest :=
  { client_id := 1, mood_score := some 7, anxiety_level := none,
    stress_level := none, sleep_quality := none, mood_description := none,
    triggers_json := "[]", coping_json := "[]" }

/-- Concrete database state used by the witness of the mood-entry
theorem. -/
def sampleDB : AppDB := { clients := [sampleClient], mood_entries := [] }

end Mood

namespace PyText

lemma length_dropWhile_le (p : Char → Bool) (l : List Char) :
    (l.dropWhile p).length ≤ l.length := by
  have h := congrArg List.length (List.takeWhile_append_dropWhile (p := p) (l := l))
  rw [List.length_append] at h
  omega

lemma pyStrip_length_le (l : List Char) : (pyStrip l).length ≤ l.length := by
  unfold pyStrip
  calc ((l.dropWhile isSpaceChar).reverse.dropWhile isSpaceChar).reverse.length
      = ((l.dropWhile isSpaceChar).reverse.dropWhile isSpaceChar).length := by simp
    _ ≤ (l.dropWhile isSpaceChar).reverse.length := length_dropWhile_le _ _
    _ = (l.dropWhile isSpaceChar).length := by simp
    _ ≤ l.length := length_dropWhile_le _ _

lemma pyStrip_eq_nil_of_all_space (l : List Char)
    (h : ∀ c ∈ l, isSpaceChar c = true) : pyStrip l = [] := by
  unfold pyStrip
  have h1 : l.dropWhile isSpaceChar = [] := List.dropWhile_eq_nil_iff.mpr h
  rw [h1]
  simp

lemma pyStrip_ne_nil_of_mem (l : List Char) (c : Char)
    (hc : c ∈ l) (hs : isSpaceChar c = false) : pyStrip l ≠ [] := by
  intro hnil
  unfold pyStrip at hnil
  rw [List.reverse_eq_nil_iff, List.dropWhile_eq_nil_iff] at hnil
  have h2 : ∀ x ∈ l.dropWhile isSpaceChar, isSpaceChar x = true := by
    intro x hx
    exact hnil x (by simpa using hx)
  have h3 : ∀ x ∈ l, isSpaceChar x = true := by
    intro x hx
    rw [← List.takeWhile_append_dropWhile (p := isSpaceChar) (l := l)] at hx
    rcases List.mem_append.mp hx with hx | hx
    · exact List.mem_takeWhile_imp hx
    · exact h2 x hx
  rw [h3 c hc] at hs
  simp at hs

lemma dropWhile_append_singleton (p : Char → Bool) (xs : List Char) (c : Char)
    (hc : p c = false) : ∃ ys, (xs ++ [c]).dropWhile p = ys ++ [c] := by
  induction xs with
  | nil => exact ⟨[], by simp [List.dropWhile, hc]⟩
  | cons x xs ih =>
      by_cases hx : p x
      · simpa [List.dropWhile, hx] using ih
      · exact ⟨x :: xs, by simp [List.dropWhile, hx]⟩

lemma pyStrip_cons_of_not_space (c : Char) (t : List Char)
    (hc : isSpaceChar c = false) : ∃ u, pyStrip (c :: t) = c :: u := by
  unfold pyStrip
  have h1 : (c :: t).dropWhile isSpaceChar = c :: t := by
    simp [List.dropWhile, hc]
  rw [h1, List.reverse_cons]
  rcases dropWhile_append_singleton isSpaceChar t.reverse c hc with ⟨ys, hys⟩
  rw [hys]
  exact ⟨ys.reverse, by simp⟩

lemma dropWhile_head_false (p : Char → Bool) (l : List Char) (c : Char) (t : List Char)
    (h : l.dropWhile p = c :: t) : p c = false := by
  induction l with
  | nil => simp [List.dropWhile] at h
  | cons x xs ih =>
      by_cases hx : p x
      · rw [List.dropWhile_cons_of_pos hx] at h
        exact ih h
      · rw [List.dropWhile_cons_of_neg hx] at h
        injection h with h1 h2
        subst h1
        simpa using hx

lemma pyStrip_head_not_space (l : List Char) (hne : pyStrip l ≠ []) :
    ∃ c u, pyStrip l = c :: u ∧ isSpaceChar c = false := by
  rcases hd : l.dropWhile isSpaceChar with _ | ⟨c, t⟩
  · exfalso
    apply hne
    unfold pyStrip
    rw [hd]
    simp
  · have hc : isSpaceChar c = false := dropWhile_head_false _ _ _ _ hd
    refine ⟨c, ?_⟩
    unfold pyStrip
    rw [hd, List.reverse_cons]
    rcases dropWhile_append_singleton isSpaceChar t.reverse c hc with ⟨ys, hys⟩
    rw [hys]
    exact ⟨ys.reverse, by simp, hc⟩

lemma foldl_rfind_lt (E : ℤ) (s : ℕ) (l : List Char) (c : Char) (is : List ℕ)
    (his : ∀ i ∈ is, (i : ℤ) < E) (acc : ℤ) (hacc : acc < E) :
    is.foldl (fun acc i => if s ≤ i ∧ l.get? i = some c then (i : ℤ) else acc) acc < E := by
  induction is generalizing acc with
  | nil => exact hacc
  | cons j js ih =>
      simp only [List.foldl_cons]
      apply ih
      · intro i hi
        exact his i (List.mem_cons_of_mem j hi)
      · by_cases hj : s ≤ j ∧ l.get? j = some c
        · rw [if_pos hj]
          exact his j (List.mem_cons_self j js)
        · rw [if_neg hj]
          exact hacc

lemma pyRfind_lt (l : List Char) (c : Char) (s e : ℕ) :
    pyRfind l c s e < (e : ℤ) := by
  unfold pyRfind
  apply foldl_rfind_lt
  · intro i hi
    have := List.mem_range.mp hi
    have h2 : i < e := lt_of_lt_of_le this (min_le_left _ _)
    exact_mod_cast h2
  · have : (0 : ℤ) ≤ (e : ℤ) := Int.natCast_nonneg e
    omega

end PyText

namespace RAGEngine

open PyText

lemma retrieve_context_foldl (rows : List QueryRow) (threshold : ℚ)
    (acc : List ContextDoc) :
    rows.foldl
      (fun context_docs r =>
        let similarity : ℚ := 1 - r.distance
        if similarity ≥ threshold then context_docs ++ [toContextDoc r]
        else context_docs)
      acc
    = acc ++ (rows.filter (fun r => decide (threshold ≤ 1 - r.distance))).map toContextDoc := by
  induction rows generalizing acc with
  | nil => simp
  | cons r rest ih =>
      by_cases h : threshold ≤ 1 - r.distance
      · simp [List.filter_cons, h, ih]
      · simp [List.filter_cons, h, ih]

/-- C3: RAGEngine.retrieve_context returns exactly those of the search
results whose similarity (1 minus the reported distance) is at least the
threshold, in the order the search returned them. -/
theorem retrieve_context_filters_by_threshold (rows : List QueryRow) (threshold : ℚ) :
    retrieve_context rows threshold
      = (rows.filter (fun r => decide (threshold ≤ 1 - r.distance))).map toContextDoc ∧
    ∀ d ∈ retrieve_context rows threshold, threshold ≤ d.similarity := by
  have hmain : retrieve_context rows threshold
      = (rows.filter (fun r => decide (threshold ≤ 1 - r.distance))).map toContextDoc := by
    simpa using retrieve_context_foldl rows threshold []
  refine ⟨hmain, ?_⟩
  intro d hd
  rw [hmain] at hd
  rcases List.mem_map.mp hd with ⟨r, hr, hrd⟩
  have := List.of_mem_filter hr
  simp only [decide_eq_true_eq] at this
  simpa [← hrd, toContextDoc] using this

lemma chunkEnd_le (text : List Char) (chunk_size start : ℕ) :
    chunkEnd text chunk_size start ≤ start + chunk_size := by
  unfold chunkEnd
  by_cases h1 : start + chunk_size < text.length
  · simp only [if_pos h1]
    set ls := max (pyRfind text '.' start (start + chunk_size))
      (max (pyRfind text '!' start (start + chunk_size))
        (pyRfind text '?' start (start + chunk_size))) with hls
    by_cases h2 : ls > ((start + chunk_size / 2 : ℕ) : ℤ)
    · simp only [if_pos h2]
      have hlt : ls < ((start + chunk_size : ℕ) : ℤ) := by
        have a1 := pyRfind_lt text '.' start (start + chunk_size)
        have a2 := pyRfind_lt text '!' start (start + chunk_size)
        have a3 := pyRfind_lt text '?' start (start + chunk_size)
        simp only [hls]
        omega
      omega
    · simp only [if_neg h2]
      by_cases h3 : pyRfind text ' ' start (start + chunk_size) > ((start : ℕ) : ℤ)
      · simp only [if_pos h3]
        have := pyRfind_lt text ' ' start (start + chunk_size)
        omega
      · simp only [if_neg h3]
        exact le_refl _
  · simp only [if_neg h1]
    exact le_refl _

lemma chunkEnd_pos (text : List Char) (chunk_size start : ℕ) (hcs : 1 ≤ chunk_size) :
    1 ≤ chunkEnd text chunk_size start := by
  unfold chunkEnd
  by_cases h1 : start + chunk_size < text.length
  · simp only [if_pos h1]
    set ls := max (pyRfind text '.' start (start + chunk_size))
      (max (pyRfind text '!' start (start + chunk_size))
        (pyRfind text '?' start (start + chunk_size))) with hls
    by_cases h2 : ls > ((start + chunk_size / 2 : ℕ) : ℤ)
    · simp only [if_pos h2]
      omega
    · simp only [if_neg h2]
      by_cases h3 : pyRfind text ' ' start (start + chunk_size) > ((start : ℕ) : ℤ)
      · simp only [if_pos h3]
        omega
      · simp only [if_neg h3]
        omega
  · simp only [if_neg h1]
    omega

lemma chunkLoopFuel_isSome (text : List Char) (chunk_size overlap : ℕ) :
    ∀ fuel start, text.length - start ≤ fuel →
      (chunkLoopFuel text chunk_size overlap fuel start).isSome := by
  intro fuel
  induction fuel with
  | zero =>
      intro start h
      have : ¬ start < text.length := by omega
      simp [chunkLoopFuel, this]
  | succ fuel ih =>
      intro start h
      by_cases hs : start < text.length
      · have hnext : text.length - max (start + 1) (chunkEnd text chunk_size start - overlap)
            ≤ fuel := by
          have : start + 1 ≤ max (start + 1) (chunkEnd text chunk_size start - overlap) :=
            le_max_left _ _
          omega
        have := ih _ hnext
        simp only [chunkLoopFuel, if_pos hs]
        simpa using this
      · simp [chunkLoopFuel, hs]

lemma chunkLoopFuel_chunk_le (text : List Char) (chunk_size overlap : ℕ) :
    ∀ fuel start r, chunkLoopFuel text chunk_size overlap fuel start = some r →
      ∀ c ∈ r, c.length ≤ chunk_size := by
  intro fuel
  induction fuel with
  | zero =>
      intro start r h c hc
      by_cases hs : start < text.length
      · simp [chunkLoopFuel, hs] at h
      · simp [chunkLoopFuel, hs] at h
        subst h
        simp at hc
  | succ fuel ih =>
      intro start r h c hc
      by_cases hs : start < text.length
      · simp only [chunkLoopFuel, if_pos hs, Option.map_eq_some'] at h
        rcases h with ⟨rest, hrest, hr⟩
        set chunk := pyStrip ((text.drop start).take
          (chunkEnd text chunk_size start - start)) with hchunk
        have hclen : chunk.length ≤ chunk_size := by
          calc chunk.length
              ≤ ((text.drop start).take (chunkEnd text chunk_size start - start)).length :=
                pyStrip_length_le _
            _ ≤ chunkEnd text chunk_size start - start := by
                rw [List.length_take]
                exact min_le_left _ _
            _ ≤ chunk_size := by
                have := chunkEnd_le text chunk_size start
                omega
        by_cases hce : chunk = []
        · rw [← hr, if_pos hce] at hc
          exact ih _ _ hrest c hc
        · rw [← hr, if_neg hce] at hc
          rcases List.mem_cons.mp hc with hc | hc
          · rw [hc]
            exact hclen
          · exact ih _ _ hrest c hc
      · simp [chunkLoopFuel, hs] at h
        subst h
        simp at hc

/-- C8: the chunking loop of RAGEngine._chunk_text terminates for every
text, chunk size and overlap: the next cursor max(start + 1, end -
overlap) strictly exceeds start, so fuel equal to the remaining length
suffices, and in particular the loop run by chunk_text finishes. -/
theorem chunk_text_terminates (text : List Char) (chunk_size overlap : ℕ) :
    (∀ start, start < max (start + 1) (chunkEnd text chunk_size start - overlap)) ∧
    (∀ fuel start, text.length - start ≤ fuel →
      (chunkLoopFuel text chunk_size overlap fuel start).isSome) ∧
    (chunkLoopFuel (cleanedText text) chunk_size overlap
      (cleanedText text).length 0).isSome := by
  refine ⟨?_, chunkLoopFuel_isSome text chunk_size overlap, ?_⟩
  · intro start
    have := le_max_left (start + 1) (chunkEnd text chunk_size start - overlap)
    omega
  · exact chunkLoopFuel_isSome _ _ _ _ 0 (by omega)

lemma collapseWs_all_space (l : List Char) (h : ∀ c ∈ l, isSpaceChar c = true) :
    ∀ b, ∀ x ∈ collapseWs b l, isSpaceChar x = true := by
  induction l with
  | nil =>
      intro b x hx
      simp [collapseWs] at hx
  | cons c rest ih =>
      intro b x hx
      have hc : isSpaceChar c = true := h c (List.mem_cons_self c rest)
      have hrest : ∀ c ∈ rest, isSpaceChar c = true := by
        intro y hy
        exact h y (List.mem_cons_of_mem c hy)
      by_cases hb : b
      · subst hb
        simp only [collapseWs, hc, if_pos rfl, if_true] at hx
        exact ih hrest true x hx
      · have hb' : b = false := by simpa using hb
        subst hb'
        simp only [collapseWs, hc, if_true, Bool.false_eq_true, if_false] at hx
        rcases List.mem_cons.mp hx with hx | hx
        · rw [hx]
          decide
        · exact ih hrest true x hx

lemma cleanedText_all_space (l : List Char) (h : ∀ c ∈ l, isSpaceChar c = true) :
    cleanedText l = [] := by
  unfold cleanedText
  exact pyStrip_eq_nil_of_all_space _ (collapseWs_all_space l h false)

lemma chunk_text_ne_nil (content : List Char) (chunk_size overlap : ℕ)
    (hcs : 1 ≤ chunk_size) : chunk_text content chunk_size overlap ≠ [] := by
  unfold chunk_text
  by_cases hshort : (pyStrip (collapseWs false content)).length ≤ chunk_size
  · simp [hshort]
  · simp only [if_neg hshort]
    set t := pyStrip (collapseWs false content) with ht
    have htlen : chunk_size < t.length := by omega
    have htne : t ≠ [] := by
      intro hnil
      rw [hnil] at htlen
      simp at htlen
    rcases pyStrip_head_not_space (collapseWs false content) (by rw [← ht]; exact htne)
      with ⟨c, u, hcu, hcsp⟩
    rw [← ht] at hcu
    rcases hfuel : t.length with _ | f
    · rw [hfuel] at htlen
      omega
    · have hstart : 0 < t.length := by omega
      have he1 : 1 ≤ chunkEnd t chunk_size 0 := chunkEnd_pos t chunk_size 0 hcs
      rcases he : chunkEnd t chunk_size 0 with _ | e'
      · omega
      · have htake : t.take (e' + 1) = c :: u.take e' := by
          rw [hcu]
          rfl
        have hchunk : pyStrip ((t.drop 0).take (chunkEnd t chunk_size 0 - 0))
            = pyStrip (t.take (e' + 1)) := by
          rw [List.drop_zero, he, Nat.sub_zero]
        rcases pyStrip_cons_of_not_space c (u.take e') hcsp with ⟨v, hv⟩
        have hchunk2 : pyStrip ((t.drop 0).take (chunkEnd t chunk_size 0 - 0)) = c :: v := by
          rw [hchunk, htake, hv]
        have hrec : (chunkLoopFuel t chunk_size overlap f
            (max (0 + 1) (chunkEnd t chunk_size 0 - overlap))).isSome := by
          apply chunkLoopFuel_isSome
          have : 1 ≤ max (0 + 1) (chunkEnd t chunk_size 0 - overlap) := le_max_left _ _
          omega
        rcases hrest : chunkLoopFuel t chunk_size overlap f
            (max (0 + 1) (chunkEnd t chunk_size 0 - overlap)) with _ | rest
        · rw [hrest] at hrec
          simp at hrec
        · simp only [chunkLoopFuel, if_pos hstart, hrest, Option.map_some']
          rw [hchunk2]
          simp

/-- C9: RAGEngine._chunk_text with the parameters add_document passes
(chunk_size 1000, overlap 200) returns a non-empty list for every input;
whitespace-only or empty content yields the single empty chunk, so the
No-content-chunks-created failure branch of add_document is never taken
for string input. -/
theorem chunk_text_never_empty (content : List Char) :
    chunk_text content 1000 200 ≠ [] ∧
    ((∀ c ∈ content, isSpaceChar c = true) → chunk_text content 1000 200 = [[]]) ∧
    ¬ add_document_chunk_failure content := by
  refine ⟨chunk_text_ne_nil content 1000 200 (by omega), ?_, ?_⟩
  · intro hall
    have hclean : pyStrip (collapseWs false content) = [] := by
      have := cleanedText_all_space content hall
      unfold cleanedText at this
      exact this
    unfold chunk_text
    rw [hclean]
    simp
  · unfold add_document_chunk_failure
    exact chunk_text_ne_nil content 1000 200 (by omega)

/-- C6: every chunk produced by RAGEngine._chunk_text has length at most
chunk_size. -/
theorem chunk_text_chunk_bounded (text : List Char) (chunk_size overlap : ℕ)
    (c : List Char) (hc : c ∈ chunk_text text chunk_size overlap) :
    c.length ≤ chunk_size := by
  unfold chunk_text at hc
  by_cases hshort : (pyStrip (collapseWs false text)).length ≤ chunk_size
  · simp only [if_pos hshort] at hc
    rcases List.mem_singleton.mp hc with rfl
    exact hshort
  · simp only [if_neg hshort] at hc
    set t := pyStrip (collapseWs false text) with ht
    rcases hsome : chunkLoopFuel t chunk_size overlap t.length 0 with _ | r
    · have := chunkLoopFuel_isSome t chunk_size overlap t.length 0 (by omega)
      rw [hsome] at this
      simp at this
    · rw [hsome] at hc
      simp only [Option.getD_some] at hc
      exact chunkLoopFuel_chunk_le t chunk_size overlap t.length 0 r hsome c hc

end RAGEngine

namespace RAGSystem

open PyText

lemma selectChunks_foldl_invariant (search_results : List SearchResult) (max_context : ℕ)
    (acc : List ContextChunk × ℕ)
    (hsim : ∀ c ∈ acc.1, c.similarity > 3/10)
    (hsum : acc.2 = (acc.1.map (fun c => c.content.length)).sum)
    (hlt : acc.2 < max_context) :
    let out := search_results.foldl
      (fun acc result =>
        if result.similarity_score > 3/10 ∧ acc.2 + result.content.length < max_context then
          (acc.1 ++ [⟨result.content, result.filename, result.similarity_score⟩],
           acc.2 + result.content.length)
        else acc)
      acc
    (∀ c ∈ out.1, c.similarity > 3/10) ∧
      out.2 = (out.1.map (fun c => c.content.length)).sum ∧ out.2 < max_context := by
  induction search_results generalizing acc with
  | nil => exact ⟨hsim, hsum, hlt⟩
  | cons r rest ih =>
      by_cases h : r.similarity_score > 3/10 ∧ acc.2 + r.content.length < max_context
      · simp only [List.foldl_cons, if_pos h]
        refine ih _ ?_ ?_ ?_
        · intro c hc
          rcases List.mem_append.mp hc with hc | hc
          · exact hsim c hc
          · simp only [List.mem_singleton] at hc
            subst hc
            exact h.1
        · simp [hsum]
        · exact h.2
      · simp only [List.foldl_cons, if_neg h]
        exact ih acc hsim hsum hlt

/-- C1: every chunk that get_context_for_ai selects for the returned
context has similarity score strictly above 0.3, the selected chunks
content lengths sum to strictly less than max_context (2000 by default),
and when no chunk is selected the function returns the empty string. -/
theorem get_context_for_ai_budget (search_results : List SearchResult) (max_context : ℕ)
    (hpos : 0 < max_context) :
    (∀ c ∈ (selectChunks search_results max_context).1, c.similarity > 3/10) ∧
    (((selectChunks search_results max_context).1.map (fun c => c.content.length)).sum
        < max_context) ∧
    ((selectChunks search_results max_context).1 = []
        → get_context_for_ai search_results max_context = "") := by
  have h := selectChunks_foldl_invariant search_results max_context ([], 0)
    (by intro c hc; simp at hc) (by simp) (by simpa using hpos)
  simp only at h
  refine ⟨h.1, ?_, ?_⟩
  · have := h.2.2
    rw [h.2.1] at this
    exact this
  · intro hempty
    unfold get_context_for_ai
    by_cases hres : search_results = []
    · simp [hres]
    · simp [hres, hempty]

lemma filterMap_eq_map_of_forall {α β : Type} (l : List α) (f : α → Option β) (g : α → β)
    (h : ∀ x ∈ l, f x = some (g x)) : l.filterMap f = l.map g := by
  induction l with
  | nil => rfl
  | cons x xs ih =>
      rw [List.filterMap_cons, h x (List.mem_cons_self x xs), List.map_cons]
      rw [ih (fun y hy => h y (List.mem_cons_of_mem x hy))]

lemma pyRange_mem_lt (n : ℕ) (i : ℕ) (hi : i ∈ pyRange n 400) : i < n := by
  unfold pyRange at hi
  rcases List.mem_range'.mp hi with ⟨k, hk, rfl⟩
  have h1 : (k + 1) * 400 ≤ ((n + 400 - 1) / 400) * 400 :=
    Nat.mul_le_mul_right 400 hk
  have h2 : ((n + 400 - 1) / 400) * 400 ≤ n + 400 - 1 := Nat.div_mul_le_self _ _
  omega

/-- C2: RAGSystem._split_text_into_chunks produces, for word list ws of
the whitespace-split text, exactly ceil of ws.length over 400 chunks,
the chunk at index i being words ws at positions i*400 through
i*400 + 499 joined by single spaces; empty text gives the empty list. -/
theorem split_text_into_chunks_spec (text : List Char) :
    (split_text_into_chunks text).length = ((pySplit text).length + 399) / 400 ∧
    (∀ i (h : i < (split_text_into_chunks text).length),
        (split_text_into_chunks text).get ⟨i, h⟩
          = joinWords (((pySplit text).drop (i * 400)).take 500)) ∧
    (text = [] → split_text_into_chunks text = []) := by
  by_cases htext : text = []
  · subst htext
    refine ⟨rfl, ?_, fun _ => rfl⟩
    intro i h
    simp [split_text_into_chunks] at h
  · set ws := pySplit text with hws
    have hstep : chunk_size - chunk_overlap = 400 := rfl
    have hbody : split_text_into_chunks text
        = (pyRange ws.length 400).filterMap
            (fun i =>
              let chunk_words := (ws.drop i).take chunk_size
              if chunk_words = [] then none else some (joinWords chunk_words)) := by
      rw [split_text_into_chunks, if_neg htext, hstep]
    have hmap : split_text_into_chunks text
        = (pyRange ws.length 400).map (fun i => joinWords ((ws.drop i).take 500)) := by
      rw [hbody]
      apply filterMap_eq_map_of_forall
      intro i hi
      have hilt : i < ws.length := pyRange_mem_lt ws.length i hi
      have hne : (ws.drop i).take chunk_size ≠ [] := by
        have hlen : ((ws.drop i).take chunk_size).length = min chunk_size (ws.length - i) := by
          rw [List.length_take, List.length_drop]
        have hpos : 0 < ((ws.drop i).take chunk_size).length := by
          rw [hlen]
          have : (0:ℕ) < chunk_size := by decide
          omega
        exact List.ne_nil_of_length_pos hpos
      simp only [if_neg hne]
      rfl
    have hlen : (split_text_into_chunks text).length = (ws.length + 399) / 400 := by
      rw [hmap, List.length_map]
      unfold pyRange
      rw [List.length_range']
      omega
    refine ⟨hlen, ?_, fun hfalse => absurd hfalse htext⟩
    intro i h
    rw [List.get_eq_getElem, List.getElem_of_eq hmap h, List.getElem_map]
    have h2 : i < (pyRange ws.length 400).length := by
      have hcopy := h
      rw [hmap, List.length_map] at hcopy
      exact hcopy
    have h3 : (pyRange ws.length 400)[i] = 400 * i := by
      unfold pyRange
      rw [List.getElem_range']
      omega
    rw [h3, Nat.mul_comm]

end RAGSystem

namespace App

/-- C4: when the hosted model call raises, send_message_with_context
returns a member of the fixed four-element fallback list and appends the
user message and that fallback response to the conversation history. -/
theorem send_message_fallback (message : String) (history : List HistoryItem)
    (rag_context client_context : String) (randPick : ℕ) :
    (send_message_with_context message history rag_context client_context none randPick).1
        ∈ fallback_responses ∧
    fallback_responses.length = 4 ∧
    (send_message_with_context message history rag_context client_context none randPick).2
      = history ++
          [⟨"user", some message, none⟩,
           ⟨"assistant",
             some (send_message_with_context message history rag_context client_context
               none randPick).1, none⟩] := by
  refine ⟨?_, rfl, rfl⟩
  show pyRandomChoice fallback_responses randPick ∈ fallback_responses
  have hlt : randPick % fallback_responses.length < fallback_responses.length :=
    Nat.mod_lt _ (by decide)
  rw [pyRandomChoice, List.getD_eq_getElem _ _ hlt]
  exact List.getElem_mem hlt

/-- C7: the prompt list assembled for the model is exactly the extended
system prompt, then the converted last (at most) 10 history entries, then
the current user message last; earlier history entries never appear, and
the system prompt is the base prompt extended with the knowledge-base and
client sections exactly when those contexts are nonempty. -/
theorem build_enhanced_history_shape (message : String) (history : List HistoryItem)
    (rag_context client_context : String) :
    buildEnhancedHistory message history rag_context client_context
      = ⟨"user", enhancedPrompt rag_context client_context⟩
        :: ((history.drop (history.length - 10)).filterMap convertItem
            ++ [⟨"user", message⟩]) ∧
    ((history.drop (history.length - 10)).filterMap convertItem).length ≤ 10 ∧
    enhancedPrompt rag_context client_context
      = base_system_prompt
          ++ (if rag_context ≠ "" then ragSection rag_context else "")
          ++ (if client_context ≠ "" then clientSection client_context else "")
          ++ promptClosing := by
  have hslice : recentHistory history = history.drop (history.length - 10) := by
    unfold recentHistory
    by_cases h : history.length > 10
    · simp [h]
    · have : history.length - 10 = 0 := by omega
      simp [h, this]
  refine ⟨?_, ?_, ?_⟩
  · unfold buildEnhancedHistory
    rw [hslice]
  · calc ((history.drop (history.length - 10)).filterMap convertItem).length
        ≤ (history.drop (history.length - 10)).length := List.length_filterMap_le _ _
      _ ≤ 10 := by
          rw [List.length_drop]
          omega
  · unfold enhancedPrompt
    by_cases hr : rag_context ≠ "" <;> by_cases hc : client_context ≠ ""
      <;> simp [hr, hc, String.append_assoc]

end App

namespace Database

/-- C5: a session saved by save_session is returned by load_session with
the same id and the same four component lists, and load_session returns
none for an id no sessions row carries. -/
theorem save_load_roundtrip {V : Type} (st : DBState V) (sd : SessionDict V)
    (now : String) (sid : String) (hmissing : ∀ r ∈ st.sessions, r.id ≠ sid) :
    load_session (save_session st sd now) sd.id
      = some
        { id := sd.id
          created_at := sd.created_at.getD now
          updated_at := now
          chat_history := sd.chat_history.getD []
          documents := sd.documents.getD []
          emotions := sd.emotions.getD []
          assessments := sd.assessments.getD [] } ∧
    load_session st sid = none := by
  constructor
  · unfold load_session save_session
    have hleft : (st.sessions.filter (fun r => !(r.id == sd.id))).find?
        (fun r => r.id == sd.id) = none := by
      rw [List.find?_eq_none]
      intro r hr
      have := List.of_mem_filter hr
      simp only [Bool.not_eq_true'] at this
      simp [this]
    rw [List.find?_append, hleft]
    simp
  · unfold load_session
    have hnone : st.sessions.find? (fun r => r.id == sid) = none := by
      rw [List.find?_eq_none]
      intro r hr
      simpa using hmissing r hr
    rw [hnone]

end Database

namespace Mood

lemma updateFirstClient_decomp (pre : List Client) (old : Client) (rest : List Client)
    (cid : Int) (ms : Option ℚ) (now : String)
    (hpre : ∀ c ∈ pre, c.id ≠ cid) (hid : old.id = cid) :
    updateFirstClient (pre ++ old :: rest) cid ms now
      = pre ++ applyMoodUpdate old ms now :: rest := by
  induction pre with
  | nil =>
      simp only [List.nil_append, updateFirstClient, if_pos hid]
  | cons c cs ih =>
      have hc : c.id ≠ cid := hpre c (List.mem_cons_self c cs)
      have hcs : ∀ x ∈ cs, x.id ≠ cid := fun x hx => hpre x (List.mem_cons_of_mem c hx)
      simp only [List.cons_append, updateFirstClient, if_neg hc]
      exact congrArg (fun l => c :: l) (ih hcs)

/-- C10 counterexample: the claim as stated is false on the code. At a
concrete state whose only client carries updated_at t0, the commit of
create_mood_entry also rewrites that column (onupdate set to
datetime.utcnow in models.py), so a field other than current_mood_score
and session_count changes. -/
theorem create_mood_entry_frame_counterexample :
    (create_mood_entry sampleDB sampleRequest "t1").clients
        = [applyMoodUpdate sampleClient sampleRequest.mood_score "t1"] ∧
    sampleClient.updated_at = "t0" ∧
    (applyMoodUpdate sampleClient sampleRequest.mood_score "t1").updated_at = "t1" ∧
    (applyMoodUpdate sampleClient sampleRequest.mood_score "t1").updated_at
        ≠ sampleClient.updated_at := by
  refine ⟨rfl, rfl, rfl, ?_⟩
  decide

/-- C10 amended: when a client with the submitted client_id exists,
create_mood_entry appends the new MoodEntry row and rewrites exactly
that client record, setting current_mood_score to the submitted score,
incrementing session_count by one, and refreshing updated_at to the
commit time through the onupdate hook of models.py, while leaving all
its other fields and all other clients unchanged. -/
theorem create_mood_entry_updates_client (st : AppDB) (req : MoodRequest) (now : String)
    (pre : List Client) (old : Client) (rest : List Client)
    (hdecomp : st.clients = pre ++ old :: rest)
    (hpre : ∀ c ∈ pre, c.id ≠ req.client_id)
    (hid : old.id = req.client_id) :
    (create_mood_entry st req now).clients
        = pre ++ applyMoodUpdate old req.mood_score now :: rest ∧
    (applyMoodUpdate old req.mood_score now).current_mood_score = req.mood_score ∧
    (applyMoodUpdate old req.mood_score now).session_count = old.session_count + 1 ∧
    (applyMoodUpdate old req.mood_score now).updated_at = now ∧
    (applyMoodUpdate old req.mood_score now).id = old.id ∧
    (applyMoodUpdate old req.mood_score now).name = old.name ∧
    (applyMoodUpdate old req.mood_score now).email = old.email ∧
    (applyMoodUpdate old req.mood_score now).age = old.age ∧
    (applyMoodUpdate old req.mood_score now).gender = old.gender ∧
    (applyMoodUpdate old req.mood_score now).created_at = old.created_at ∧
    (applyMoodUpdate old req.mood_score now).medical_conditions
        = old.medical_conditions ∧
    (applyMoodUpdate old req.mood_score now).current_medications
        = old.current_medications ∧
    (applyMoodUpdate old req.mood_score now).mental_health_history
        = old.mental_health_history ∧
    (applyMoodUpdate old req.mood_score now).trauma_history = old.trauma_history ∧
    (applyMoodUpdate old req.mood_score now).treatment_preferences
        = old.treatment_preferences ∧
    (applyMoodUpdate old req.mood_score now).initial_mood_score
        = old.initial_mood_score ∧
    (applyMoodUpdate old req.mood_score now).data_sharing_consent
        = old.data_sharing_consent ∧
    (applyMoodUpdate old req.mood_score now).emergency_contact
        = old.emergency_contact ∧
    (create_mood_entry st req now).mood_entries
        = st.mood_entries ++ [mkMoodEntry req now] := by
  refine ⟨?_, rfl, rfl, rfl, rfl, rfl, rfl, rfl, rfl, rfl, rfl, rfl, rfl, rfl, rfl,
    rfl, rfl, rfl, rfl⟩
  show updateFirstClient st.clients req.client_id req.mood_score now
      = pre ++ applyMoodUpdate old req.mood_score now :: rest
  rw [hdecomp]
  exact updateFirstClient_decomp pre old rest req.client_id req.mood_score now hpre hid

end Mood

namespace RAGEngine

/-- Witness for the retrieval filter theorem at a concrete row list and
threshold one half. -/
theorem retrieve_context_filters_by_threshold_witness :
    retrieve_context sampleRows (1/2)
      = (sampleRows.filter (fun r => decide ((1:ℚ)/2 ≤ 1 - r.distance))).map toContextDoc ∧
    ∀ d ∈ retrieve_context sampleRows (1/2), (1:ℚ)/2 ≤ d.similarity :=
  retrieve_context_filters_by_threshold sampleRows (1/2)

/-- Witness for the chunk length bound at a concrete text, chunk size 1
and overlap 0. -/
theorem chunk_text_chunk_bounded_witness :
    (['a'] : List Char) ∈ chunk_text ['a', 'b'] 1 0 ∧ (['a'] : List Char).length ≤ 1 :=
  ⟨by decide, chunk_text_chunk_bounded ['a', 'b'] 1 0 ['a'] (by decide)⟩

/-- Witness for the termination theorem: fuel 2 covers the two-character
text from start 0. -/
theorem chunk_text_terminates_witness :
    (['a', 'b'] : List Char).length - 0 ≤ 2 ∧
    (chunkLoopFuel ['a', 'b'] 1 0 2 0).isSome = true :=
  ⟨by decide, (chunk_text_terminates ['a', 'b'] 1 0).2.1 2 0 (by decide)⟩

/-- Witness for the never-empty theorem: a single-space content is all
whitespace and yields the single empty chunk. -/
theorem chunk_text_never_empty_witness :
    (∀ c ∈ ([' '] : List Char), PyText.isSpaceChar c = true) ∧
    chunk_text [' '] 1000 200 = [[]] :=
  ⟨by decide, (chunk_text_never_empty [' ']).2.1 (by decide)⟩

end RAGEngine

namespace RAGSystem

open PyText

/-- Witness for the context budget theorem at one concrete search result
and the default budget 2000. -/
theorem get_context_for_ai_budget_witness :
    (∀ c ∈ (selectChunks sampleResults 2000).1, c.similarity > 3/10) ∧
    ((selectChunks sampleResults 2000).1.map (fun c => c.content.length)).sum < 2000 ∧
    ((selectChunks sampleResults 2000).1 = []
        → get_context_for_ai sampleResults 2000 = "") :=
  get_context_for_ai_budget sampleResults 2000 (by decide)

/-- Witness for the word-chunking theorem at the concrete text a-space-b. -/
theorem split_text_into_chunks_spec_witness :
    (split_text_into_chunks ['a', ' ', 'b']).length
        = ((pySplit ['a', ' ', 'b']).length + 399) / 400 ∧
    (∀ i (h : i < (split_text_into_chunks ['a', ' ', 'b']).length),
        (split_text_into_chunks ['a', ' ', 'b']).get ⟨i, h⟩
          = joinWords (((pySplit ['a', ' ', 'b']).drop (i * 400)).take 500)) ∧
    (['a', ' ', 'b'] = ([] : List Char) → split_text_into_chunks ['a', ' ', 'b'] = []) :=
  split_text_into_chunks_spec ['a', ' ', 'b']

end RAGSystem

namespace Database

/-- Witness for the round-trip theorem at a concrete empty state, one
saved session and a distinct unsaved id. -/
theorem save_load_roundtrip_witness :
    load_session
        (save_session (⟨[], [], [], [], []⟩ : DBState ℕ)
          ⟨"s1", none, some [1, 2], none, none, none⟩ "t0") "s1"
      = some ⟨"s1", "t0", "t0", [1, 2], [], [], []⟩ ∧
    load_session (⟨[], [], [], [], []⟩ : DBState ℕ) "s2" = none :=
  save_load_roundtrip (⟨[], [], [], [], []⟩ : DBState ℕ)
    ⟨"s1", none, some [1, 2], none, none, none⟩ "t0" "s2"
    (by intro r hr; simp at hr)

end Database

namespace Mood

/-- Witness for the amended mood-entry theorem at a concrete one-client
state. -/
theorem create_mood_entry_updates_client_witness :
    (create_mood_entry sampleDB sampleRequest "t1").clients
        = [] ++ applyMoodUpdate sampleClient sampleRequest.mood_score "t1" :: [] ∧
    (applyMoodUpdate sampleClient sampleRequest.mood_score "t1").current_mood_score
        = sampleRequest.mood_score ∧
    (applyMoodUpdate sampleClient sampleRequest.mood_score "t1").session_count
        = sampleClient.session_count + 1 ∧
    (applyMoodUpdate sampleClient sampleRequest.mood_score "t1").updated_at = "t1" := by
  have h := create_mood_entry_updates_client sampleDB sampleRequest "t1"
    [] sampleClient [] rfl (by intro c hc; simp at hc) rfl
  exact ⟨h.1, h.2.1, h.2.2.1, h.2.2.2.1⟩

end Mood
